import Mathlib

/-!
Verification of the game session engine of the multiplayer word game
(room/player store `lib/game-store.ts`, session hook `hooks/use-multiplayer.ts`).

The data model and operations below are a shallow embedding of the TypeScript
source.  Timestamps (`Date.now()` / ISO strings) are modelled as natural-number
milliseconds passed in explicitly as a `now` argument; randomness
(`Math.random()`-derived indices and generated player ids) is modelled as
explicit parameters (`r`, `choices`, `newId`); `await`ed store calls are pure
state transformations.  Phases and difficulties are kept as strings, exactly as
in the source.
-/

set_option maxHeartbeats 1000000

/-- `toUpperCase()` on the ASCII strings the game uses (room codes, names),
written over the character list so that concrete instances evaluate. -/
def String.strUpper (s : String) : String := ⟨s.data.map Char.toUpper⟩

/-- `toLowerCase()` on the ASCII strings the game uses. -/
def String.strLower (s : String) : String := ⟨s.data.map Char.toLower⟩

/-- `trim()`: strip whitespace from both ends. -/
def String.strTrim (s : String) : String :=
  ⟨((s.data.dropWhile (·.isWhitespace)).reverse.dropWhile (·.isWhitespace)).reverse⟩

/-- `settings` object of a room (`GameSettings` in `lib/game-store.ts`). -/
structure GameSettings where
  totalPlayers : Nat
  imposterCount : Nat
  difficulty : String
  roundTime : Nat
deriving DecidableEq, Repr

/-- A row of the `players` table / an element of `room.players`
(`Player` in `lib/game-store.ts`, extended with the per-round flags the hook
stores on players: `has_voted`, `has_submitted_clue`). -/
structure Player where
  id : String
  room_id : String
  name : String
  is_admin : Bool
  word : String
  clue : String
  votes : Nat
  is_eliminated : Bool
  has_voted : Bool
  has_submitted_clue : Bool
  score : Nat
  last_seen : Nat
deriving DecidableEq, Repr

/-- A room together with its players (`GameRoomWithPlayers`), including the
result fields the latest hook keeps on the room (`voteCounts`,
`eliminationResult`, `gameWinner`, `lastEliminatedPlayerId`). -/
structure Room where
  id : String
  players : List Player
  settings : GameSettings
  game_phase : String
  current_player_index : Nat
  time_left : Nat
  round : Nat
  vote_counts : Option (List (String × Nat))
  elimination_result : Option String
  game_winner : Option String
  last_eliminated_player_id : Option String
  last_activity : Nat
deriving DecidableEq, Repr

/-- A `playerSessions` entry of the in-memory store. -/
structure PlayerSession where
  roomId : String
  playerId : String
  lastSeen : Nat
deriving DecidableEq, Repr

/-- The in-memory backend state: the `gameRooms` map (keyed by upper-cased room
code) and the `playerSessions` map (keyed by player id). -/
structure MemStore where
  rooms : List (String × Room)
  sessions : List (String × PlayerSession)
deriving DecidableEq, Repr

/-- `Map.get`: first entry with the given key (keys are unique by construction). -/
def mapGet {α : Type} (m : List (String × α)) (k : String) : Option α :=
  (m.find? (fun e => e.1 == k)).map (·.2)

/-- `Map.set`: replace the entry with the given key, or append a new one. -/
def mapSet {α : Type} (m : List (String × α)) (k : String) (v : α) : List (String × α) :=
  match m with
  | [] => [(k, v)]
  | e :: es => if e.1 == k then (k, v) :: es else e :: mapSet es k v

/-- `Map.delete`: drop every entry with the given key. -/
def mapDelete {α : Type} (m : List (String × α)) (k : String) : List (String × α) :=
  m.filter (fun e => e.1 != k)

/-- Update the first list element satisfying `pred` (the element JavaScript's
`find` / `findIndex` returns), leaving the rest unchanged. -/
def updateFirstP {α : Type} (pred : α → Bool) (f : α → α) : List α → List α
  | [] => []
  | p :: ps => if pred p then f p :: ps else p :: updateFirstP pred f ps

/-- Remove the first list element satisfying `pred` (`Array.splice(idx, 1)` at
the index JavaScript's `findIndex` returns). -/
def removeFirstP {α : Type} (pred : α → Bool) : List α → List α
  | [] => []
  | p :: ps => if pred p then ps else p :: removeFirstP pred ps

/-- A sequential `for (const p of l) await GameStore.updatePlayer(room, pid, u)`
loop: apply `updateFirstP` once per id, in order, to the evolving list. -/
def updateEach (ids : List String) (f : Player → Player) (players : List Player) : List Player :=
  ids.foldl (fun acc pid => updateFirstP (fun p => p.id == pid) f acc) players

/-- Partial player update (`Partial<Player>` as passed to `updatePlayer`):
only the fields the hook ever sends. -/
structure PlayerPatch where
  word : Option String := none
  clue : Option String := none
  votes : Option Nat := none
  is_eliminated : Option Bool := none
  has_voted : Option Bool := none
  has_submitted_clue : Option Bool := none
deriving DecidableEq, Repr

/-- `Object.assign(player, updates, { last_seen: now })`
(`GameStore.updatePlayerMemory`). -/
def applyPlayerPatch (p : Player) (u : PlayerPatch) (now : Nat) : Player :=
  { p with
    word := u.word.getD p.word
    clue := u.clue.getD p.clue
    votes := u.votes.getD p.votes
    is_eliminated := u.is_eliminated.getD p.is_eliminated
    has_voted := u.has_voted.getD p.has_voted
    has_submitted_clue := u.has_submitted_clue.getD p.has_submitted_clue
    last_seen := now }

/-- Partial room update (`Partial<GameRoomWithPlayers>` as passed to
`updateRoom`): only the fields the hook ever sends.  A present `Option …`
value of `none` models an explicit `null` in the payload. -/
structure RoomPatch where
  settings : Option GameSettings := none
  game_phase : Option String := none
  current_player_index : Option Nat := none
  time_left : Option Nat := none
  round : Option Nat := none
  vote_counts : Option (Option (List (String × Nat))) := none
  elimination_result : Option (Option String) := none
  game_winner : Option (Option String) := none
  last_eliminated_player_id : Option (Option String) := none
deriving DecidableEq, Repr

/-- `Object.assign(room, updates, { last_activity: now })`
(`GameStore.updateRoomMemory`). -/
def applyRoomPatch (r : Room) (u : RoomPatch) (now : Nat) : Room :=
  { r with
    settings := u.settings.getD r.settings
    game_phase := u.game_phase.getD r.game_phase
    current_player_index := u.current_player_index.getD r.current_player_index
    time_left := u.time_left.getD r.time_left
    round := u.round.getD r.round
    vote_counts := u.vote_counts.getD r.vote_counts
    elimination_result := u.elimination_result.getD r.elimination_result
    game_winner := u.game_winner.getD r.game_winner
    last_eliminated_player_id := u.last_eliminated_player_id.getD r.last_eliminated_player_id
    last_activity := now }

/-- `GameStore.getRoomMemory`: `gameRooms.get(roomCode.toUpperCase()) || null`. -/
def getRoomMemory (st : MemStore) (roomCode : String) : Option Room :=
  mapGet st.rooms roomCode.strUpper

/-- `GameStore.createRoomMemory`: throws if the code is taken, otherwise
creates a lobby room with default settings and a single admin player. -/
def createRoomMemory (st : MemStore) (roomCode playerName : String) (now : Nat)
    (newId : String) : Except String (MemStore × Room × String) :=
  let key := roomCode.strUpper
  if (mapGet st.rooms key).isSome then
    .error "Room code already exists"
  else
    let adminPlayer : Player :=
      { id := newId, room_id := key, name := playerName.strTrim, is_admin := true
        word := "", clue := "", votes := 0, is_eliminated := false
        has_voted := false, has_submitted_clue := false, score := 0, last_seen := now }
    let room : Room :=
      { id := key, players := [adminPlayer]
        settings := { totalPlayers := 6, imposterCount := 2, difficulty := "easy", roundTime := 10 }
        game_phase := "lobby", current_player_index := 0, time_left := 0, round := 1
        vote_counts := none, elimination_result := none, game_winner := none
        last_eliminated_player_id := none, last_activity := now }
    .ok ({ rooms := mapSet st.rooms key room
           sessions := mapSet st.sessions newId
             { roomId := key, playerId := newId, lastSeen := now } },
         room, newId)

/-- The predicate `joinRoomMemory` uses to look up an existing player with the
same (trimmed, case-insensitive) name. -/
def sameNameP (trimmedName : String) (p : Player) : Bool :=
  p.name.strLower == trimmedName.strLower

/-- The tail of `joinRoomMemory` shared by the "no such name" and the
"inactive player removed" paths: capacity check, then create a new non-admin
player. -/
def joinRoomMemoryAsNew (st : MemStore) (key : String) (room : Room)
    (trimmedName : String) (now : Nat) (newId : String) :
    Except String (MemStore × Room × String) :=
  if room.players.length ≥ room.settings.totalPlayers then
    .error ("Room " ++ key ++ " is full (" ++ toString room.players.length ++ "/"
      ++ toString room.settings.totalPlayers ++ ")")
  else
    let newPlayer : Player :=
      { id := newId, room_id := key, name := trimmedName, is_admin := false
        word := "", clue := "", votes := 0, is_eliminated := false
        has_voted := false, has_submitted_clue := false, score := 0, last_seen := now }
    let room' := { room with players := room.players ++ [newPlayer], last_activity := now }
    .ok ({ rooms := mapSet st.rooms key room'
           sessions := mapSet st.sessions newId
             { roomId := key, playerId := newId, lastSeen := now } },
         room', newId)

/-- `GameStore.joinRoomMemory`: lobby-only; reconnects an active same-name
player, removes an inactive one (without admin re-promotion), enforces
capacity, else appends a fresh non-admin player. -/
def joinRoomMemory (st : MemStore) (roomCode playerName : String) (now : Nat)
    (newId : String) : Except String (MemStore × Room × String) :=
  let key := roomCode.strUpper
  match getRoomMemory st roomCode with
  | none => .error ("Room " ++ key ++ " not found")
  | some room =>
    if room.game_phase ≠ "lobby" then
      .error ("Room " ++ key ++ " is already in progress")
    else
      let trimmedName := playerName.strTrim
      match room.players.find? (sameNameP trimmedName) with
      | some existingPlayer =>
        if now - existingPlayer.last_seen > 2 * 60 * 1000 then
          -- inactive: splice the player out (no admin promotion happens here)
          let room' := { room with players := removeFirstP (sameNameP trimmedName) room.players }
          let st' : MemStore :=
            { rooms := mapSet st.rooms key room'
              sessions := mapDelete st.sessions existingPlayer.id }
          joinRoomMemoryAsNew st' key room' trimmedName now newId
        else
          -- active: reconnect, refresh timestamps, return the existing id
          let room' :=
            { room with
              players := updateFirstP (sameNameP trimmedName)
                (fun p => { p with last_seen := now }) room.players
              last_activity := now }
          .ok ({ rooms := mapSet st.rooms key room'
                 sessions := updateFirstP (fun e => e.1 == existingPlayer.id)
                   (fun e => (e.1, { e.2 with lastSeen := now })) st.sessions },
               room', existingPlayer.id)
      | none => joinRoomMemoryAsNew st key room trimmedName now newId

/-- `GameStore.updateRoomMemory`: `Object.assign` the patch onto the stored
room (no phase check, no clamping of settings). -/
def updateRoomMemory (st : MemStore) (roomCode : String) (u : RoomPatch) (now : Nat) :
    Option (MemStore × Room) :=
  match getRoomMemory st roomCode with
  | none => none
  | some room =>
    let room' := applyRoomPatch room u now
    some ({ st with rooms := mapSet st.rooms roomCode.strUpper room' }, room')

/-- The effect of `GameStore.updatePlayerMemory` on a single room: update the
player `findIndex` locates, refresh `last_activity`; `none` when the player is
absent. -/
def roomUpdatePlayer (room : Room) (playerId : String) (u : PlayerPatch) (now : Nat) :
    Option Room :=
  if room.players.any (fun p => p.id == playerId) then
    some { room with
           players := updateFirstP (fun p => p.id == playerId)
             (fun p => applyPlayerPatch p u now) room.players
           last_activity := now }
  else none

/-- `GameStore.updatePlayerMemory` on the store. -/
def updatePlayerMemory (st : MemStore) (roomCode playerId : String) (u : PlayerPatch)
    (now : Nat) : Option (MemStore × Room) :=
  match getRoomMemory st roomCode with
  | none => none
  | some room =>
    match roomUpdatePlayer room playerId u now with
    | none => none
    | some room' =>
      some ({ rooms := mapSet st.rooms roomCode.strUpper room'
              sessions := updateFirstP (fun e => e.1 == playerId)
                (fun e => (e.1, { e.2 with lastSeen := now })) st.sessions },
            room')

/-- `GameStore.removePlayerMemory`: delete the player, delete the room when it
empties, otherwise promote `players[0]` when no admin is left. -/
def removePlayerMemory (st : MemStore) (roomCode playerId : String) (now : Nat) :
    MemStore × Option Room :=
  match getRoomMemory st roomCode with
  | none => (st, none)
  | some room =>
    let players' := room.players.filter (fun p => p.id != playerId)
    let st' : MemStore := { st with sessions := mapDelete st.sessions playerId }
    if players'.length = 0 then
      -- the source deletes with the raw (non-uppercased) code here
      ({ st' with rooms := mapDelete st'.rooms roomCode }, none)
    else
      let players'' :=
        if players'.any (·.is_admin) then players'
        else updateFirstP (fun _ => true) (fun p => { p with is_admin := true }) players'
      let room' := { room with players := players'', last_activity := now }
      ({ st' with rooms := mapSet st'.rooms roomCode.strUpper room' }, some room')

/-- A row of the `game_rooms` table (no players; they live in their own table). -/
structure RoomRow where
  id : String
  settings : GameSettings
  game_phase : String
  current_player_index : Nat
  time_left : Nat
  round : Nat
  last_activity : Nat
deriving DecidableEq, Repr

/-- The persistent (Supabase) backend state: the two tables. -/
structure SupaDB where
  game_rooms : List RoomRow
  players : List Player
deriving DecidableEq, Repr

/-- The composed `select *, players (*)` snapshot of one room. -/
def composeRoom (db : SupaDB) (row : RoomRow) : Room :=
  { id := row.id
    players := db.players.filter (fun p => p.room_id == row.id)
    settings := row.settings
    game_phase := row.game_phase
    current_player_index := row.current_player_index
    time_left := row.time_left
    round := row.round
    vote_counts := none, elimination_result := none, game_winner := none
    last_eliminated_player_id := none
    last_activity := row.last_activity }

/-- The admin-reconnect predicate of `createRoomSupabase`:
`p.is_admin && p.name.toLowerCase() === playerName.toLowerCase()` (note: the
incoming name is *not* trimmed for this comparison). -/
def adminNameP (playerName : String) (p : Player) : Bool :=
  p.is_admin && (p.name.strLower == playerName.strLower)

/-- The `game_rooms` row `createRoomSupabase` inserts (default settings). -/
def freshRoomRow (key : String) (now : Nat) : RoomRow :=
  { id := key
    settings := { totalPlayers := 6, imposterCount := 2, difficulty := "easy", roundTime := 10 }
    game_phase := "lobby", current_player_index := 0, time_left := 0, round := 1
    last_activity := now }

/-- The admin `players` row `createRoomSupabase` inserts. -/
def freshAdmin (key name id : String) (now : Nat) : Player :=
  { id := id, room_id := key, name := name, is_admin := true
    word := "", clue := "", votes := 0, is_eliminated := false
    has_voted := false, has_submitted_clue := false, score := 0, last_seen := now }

/-- `GameStore.createRoomSupabase`: if a room with this code exists, reconnect
its admin by case-insensitive name (refreshing `last_seen`, returning the
snapshot read before that refresh) or fail; otherwise insert a fresh lobby row
and its admin player.  The `23505` duplicate-insert race branch cannot arise in
this sequential model. -/
def createRoomSupabase (db : SupaDB) (roomCode playerName : String) (now : Nat)
    (newId : String) : Except String (SupaDB × Room × String) :=
  let key := roomCode.strUpper
  match db.game_rooms.find? (fun r => r.id == key) with
  | some row =>
    let existingRoom := composeRoom db row
    match existingRoom.players.find? (adminNameP playerName) with
    | some adminPlayer =>
      let players' := updateFirstP (fun p => p.id == adminPlayer.id)
        (fun p => { p with last_seen := now }) db.players
      .ok ({ db with players := players' }, existingRoom, adminPlayer.id)
    | none => .error "Room code already exists with different admin"
  | none =>
    let row := freshRoomRow key now
    let adminPlayer := freshAdmin key playerName.strTrim newId now
    let db' : SupaDB := { game_rooms := db.game_rooms ++ [row], players := db.players ++ [adminPlayer] }
    .ok (db', { composeRoom db row with players := [adminPlayer] }, newId)

/-- The `easy` word-pair table of the latest `generateWords`. -/
def wordPairsEasy : List (String × String) := [("Dog", "Wolf"), ("Cat", "Tiger")]

/-- The `medium` word-pair table of the latest `generateWords`. -/
def wordPairsMedium : List (String × String) := [("Violin", "Viola"), ("Crocodile", "Alligator")]

/-- The `hard` word-pair table of the latest `generateWords`. -/
def wordPairsHard : List (String × String) := [("Sonnet", "Haiku"), ("Stalactite", "Stalagmite")]

/-- `generateWords(difficulty)`: pick a (majorityWord, imposterWord) pair from
the difficulty-keyed table (unknown difficulties fall back to `medium`); the
random index `Math.floor(Math.random() * length)` is modelled by `r % length`. -/
def generateWords (difficulty : String) (r : Nat) : String × String :=
  let selectedPairs :=
    if difficulty == "easy" then wordPairsEasy
    else if difficulty == "medium" then wordPairsMedium
    else if difficulty == "hard" then wordPairsHard
    else wordPairsMedium
  selectedPairs.getD (r % selectedPairs.length) ("Violin", "Viola")

/-- The Fisher-Yates loop of `startGame` as a permutation of array positions:
`for (let i = indices.length - 1; i > 0; i--) swap(indices[i], indices[j])`
with `j = Math.floor(Math.random() * (i + 1))` modelled as `choices i % (i+1)`.
`fyPerm n choices k` is the permutation after the steps `i = k, k-1, …, 1`;
position `p` of the final array holds value `fyPerm n choices (n-1) p` (the
array starts as the identity `[0, …, n-1]`). -/
def fyPerm (n : Nat) (choices : Nat → Nat) : Nat → Equiv.Perm (Fin n)
  | 0 => Equiv.refl _
  | k + 1 =>
    if h : k + 1 < n then
      Equiv.swap ⟨k + 1, h⟩
          ⟨choices (k + 1) % (k + 2),
           Nat.lt_of_le_of_lt (Nat.le_of_lt_succ (Nat.mod_lt _ (Nat.succ_pos _))) h⟩
        * fyPerm n choices k
    else fyPerm n choices k

/-- The shuffled `indices` array of `startGame`, as a list of values. -/
def fisherYatesShuffle (n : Nat) (choices : Nat → Nat) : List Nat :=
  (List.finRange n).map (fun k => ((fyPerm n choices (n - 1)) k : Nat))

/-- The word-assignment step of `startGame`: with
`imposterCount = Math.min(settings.imposterCount, Math.floor(playerCount / 2))`
and `imposterIndices = indices.slice(0, imposterCount)`, player `i` receives
the imposter word iff `imposterIndices.includes(i)`.  Returns the list of
words assigned to players `0, …, n-1`. -/
def startGameAssignedWords (n settingsImposterCount : Nat) (choices : Nat → Nat)
    (majorityWord imposterWord : String) : List String :=
  let imposterCount := min settingsImposterCount (n / 2)
  let imposterIndices := (fisherYatesShuffle n choices).take imposterCount
  (List.range n).map (fun i => if i ∈ imposterIndices then imposterWord else majorityWord)

/-- Partial settings update (`Partial<Room["settings"]>`). -/
structure SettingsPatch where
  totalPlayers : Option Nat := none
  imposterCount : Option Nat := none
  difficulty : Option String := none
  roundTime : Option Nat := none
deriving DecidableEq, Repr

/-- The spread `{ ...room.settings, ...settings }` in `updateSettings`. -/
def mergeSettings (s : GameSettings) (u : SettingsPatch) : GameSettings :=
  { totalPlayers := u.totalPlayers.getD s.totalPlayers
    imposterCount := u.imposterCount.getD s.imposterCount
    difficulty := u.difficulty.getD s.difficulty
    roundTime := u.roundTime.getD s.roundTime }

/-- The hook's `updateSettings`: no phase check and no clamping; merges the
patch over the current settings and stores the result via
`GameStore.updateRoom`. -/
def updateSettings (st : MemStore) (roomCode : String) (u : SettingsPatch) (now : Nat) :
    MemStore × Bool :=
  match getRoomMemory st roomCode with
  | none => (st, false)
  | some room =>
    match updateRoomMemory st roomCode { settings := some (mergeSettings room.settings u) } now with
    | some (st', _) => (st', true)
    | none => (st, false)

/-- The hook's `submitClue`: guarded by `room.game_phase !== "simultaneous_clues"`;
writes the clue, then advances the room to `voting` once every active player
has submitted. -/
def submitClue (st : MemStore) (roomCode playerId clue : String) (now : Nat) :
    MemStore × Bool :=
  match getRoomMemory st roomCode with
  | none => (st, false)
  | some room =>
    if room.game_phase ≠ "simultaneous_clues" then (st, false)
    else
      let st1 := ((updatePlayerMemory st roomCode playerId
        { clue := some clue, has_submitted_clue := some true } now).map (·.1)).getD st
      match getRoomMemory st1 roomCode with
      | none => (st1, false)
      | some updatedRoom =>
        let activePlayers := updatedRoom.players.filter (fun p => !p.is_eliminated)
        if activePlayers.all (·.has_submitted_clue) && decide (0 < activePlayers.length) then
          let st2 := ((updateRoomMemory st1 roomCode
            { game_phase := some "voting", time_left := some 0 } now).map (·.1)).getD st1
          (st2, true)
        else (st1, true)

/-- The hook's `submitVote` (synchronous part): guarded by
`room.game_phase !== 'voting'` and `voter?.has_voted`; increments the target's
votes, marks the voter, and — once every active player has voted — snapshots
`voteCounts` and flips the room to `reveal_votes`.  The admin's delayed
elimination callback is modelled separately by `adminProcessElimination`. -/
def submitVote (st : MemStore) (roomCode playerId votedPlayerId : String) (now : Nat) :
    MemStore × Bool :=
  match getRoomMemory st roomCode with
  | none => (st, false)
  | some room =>
    if room.game_phase ≠ "voting" then (st, false)
    else
      let voter := room.players.find? (fun p => p.id == playerId)
      if (voter.map (·.has_voted)).getD false then (st, false)
      else
        match room.players.find? (fun p => p.id == votedPlayerId) with
        | none => (st, false)
        | some votedPlayer =>
          let st1 := ((updatePlayerMemory st roomCode votedPlayerId
            { votes := some (votedPlayer.votes + 1) } now).map (·.1)).getD st
          let st2 := ((updatePlayerMemory st1 roomCode playerId
            { has_voted := some true } now).map (·.1)).getD st1
          match getRoomMemory st2 roomCode with
          | none => (st2, false)
          | some currentRoom =>
            let activePlayers := currentRoom.players.filter (fun p => !p.is_eliminated)
            if activePlayers.all (·.has_voted) then
              let voteCountsForDisplay := currentRoom.players.map (fun p => (p.id, p.votes))
              let st3 := ((updateRoomMemory st2 roomCode
                { game_phase := some "reveal_votes"
                  vote_counts := some (some voteCountsForDisplay)
                  time_left := some 7
                  elimination_result := some none
                  last_eliminated_player_id := some none
                  game_winner := some none } now).map (·.1)).getD st2
              (st3, true)
            else (st2, true)

/-- `currentVoteCounts[c.id] || 0`: the tally a candidate received in the
`voteCounts` snapshot (`roomAfterReveal.voteCounts || {}`). -/
def snapshotVotes (voteCounts : Option (List (String × Nat))) (p : Player) : Nat :=
  (((voteCounts.getD []).find? (fun e => e.1 == p.id)).map (·.2)).getD 0

/-- The admin elimination scan of `submitVote`'s reveal timeout:
`maxVotes` starts at `-1`; a strictly larger tally resets `playersWithMax` to
`[c]`, an equal tally appends `c`. -/
def tallyScan (voteCounts : Option (List (String × Nat))) (candidates : List Player) :
    Int × List Player :=
  candidates.foldl
    (fun s c =>
      let votes : Int := (snapshotVotes voteCounts c : Int)
      if votes > s.1 then (votes, [c])
      else if votes = s.1 then (s.1, s.2 ++ [c])
      else s)
    (-1, [])

/-- The player the admin callback eliminates:
`maxVotes > 0 && playersWithMax.length === 1` picks `playersWithMax[0]`,
otherwise no one is eliminated. -/
def eliminationTarget (voteCounts : Option (List (String × Nat)))
    (candidates : List Player) : Option Player :=
  let s := tallyScan voteCounts candidates
  if s.1 > 0 ∧ s.2.length = 1 then s.2.head? else none

/-- `finalActive` / `candidates`: the non-eliminated players. -/
def activePlayers (players : List Player) : List Player :=
  players.filter (fun p => !p.is_eliminated)

/-- JavaScript `Set` iteration order: first occurrences, in insertion order. -/
def firstOccurrences (l : List String) : List String :=
  l.foldl (fun acc x => if acc.contains x then acc else acc ++ [x]) []

/-- The `(actualMajorityWord, actualImposterWord)` computation of the win
check: the distinct non-empty words over *all* players; with two distinct
words the more numerous one (ties broken towards the first-inserted) is the
majority word; with one distinct word the imposter word stays `""`. -/
def derivedWords (players : List Player) : String × String :=
  let distinctWords := firstOccurrences ((players.map (·.word)).filter (fun w => w ≠ ""))
  match distinctWords with
  | [w] => (w, "")
  | [w1, w2] =>
    let c1 := (players.filter (fun p => p.word == w1)).length
    let c2 := (players.filter (fun p => p.word == w2)).length
    (if c1 ≥ c2 then w1 else w2, if c1 < c2 then w1 else w2)
  | _ => ("", "")

/-- `activeMaj`: active players holding the derived majority word. -/
def activeMajorityCount (players : List Player) : Nat :=
  ((activePlayers players).filter (fun p => p.word == (derivedWords players).1)).length

/-- `activeImp`: active players holding the derived imposter word (the code's
`p.word === actualImposterWord && actualImposterWord` truthiness check). -/
def activeImposterCount (players : List Player) : Nat :=
  ((activePlayers players).filter
    (fun p => p.word == (derivedWords players).2 && (derivedWords players).2 != "")).length

/-- The win evaluation of the reveal timeout, run on the players after the
elimination and vote reset have been applied:
`if (!actualImposterWord || activeImp === 0) gameWinner = 'majority'; else if
(activeMaj === 0) …; else if (activeImp > 0 && activeImp >= activeMaj) …`.
There is no guard on the number of remaining active players: with none left,
the first branch fires and the majority wins. -/
def evalWinner (players : List Player) : Option String :=
  if (derivedWords players).2 = "" ∨ activeImposterCount players = 0 then some "majority"
  else if activeMajorityCount players = 0 then some "imposters"
  else if 0 < activeImposterCount players ∧ activeMajorityCount players ≤ activeImposterCount players
  then some "imposters"
  else none

/-- The `eliminationResult` message of the reveal timeout. -/
def eliminationMessage (voteCounts : Option (List (String × Nat)))
    (candidates : List Player) : Option String :=
  if candidates.length = 0 then some "No candidates for elimination."
  else
    match eliminationTarget voteCounts candidates with
    | some t => some ("Player " ++ t.name ++ " has been eliminated.")
    | none => some "No one was eliminated this round."

/-- Stage 1 of the reveal timeout: mark the elimination target (if any) as
eliminated, via `GameStore.updatePlayer` (which refreshes `last_seen` and
`last_activity`). -/
def applyElimination (room : Room) (now : Nat) : Room :=
  match eliminationTarget room.vote_counts (activePlayers room.players) with
  | some t =>
    ((roomUpdatePlayer room t.id { is_eliminated := some true } now).getD room)
  | none => room

/-- Stage 2 of the reveal timeout: `for (const p of roomAfterReveal.players)
updatePlayer(p.id, { votes: 0, has_voted: false })` — a sequential update over
the ids of the pre-elimination snapshot. -/
def resetAllVotes (snapshotIds : List String) (room : Room) (now : Nat) : Room :=
  { room with
    players := updateEach snapshotIds
      (fun p => { p with votes := 0, has_voted := false, last_seen := now }) room.players
    last_activity := now }

/-- The admin's `reveal_votes` timeout callback in `submitVote` (the latest
hook version): elimination by the `voteCounts` snapshot, vote/`has_voted`
reset for everyone, win evaluation, then either the `results` transition or
the next-round `simultaneous_clues` transition (clearing active players'
clues). -/
def adminProcessElimination (room : Room) (now : Nat) : Room :=
  if room.game_phase ≠ "reveal_votes" then room
  else
    let room1 := applyElimination room now
    let room2 := resetAllVotes (room.players.map (·.id)) room1 now
    let elimMsg := eliminationMessage room.vote_counts (activePlayers room.players)
    let elimId := (eliminationTarget room.vote_counts (activePlayers room.players)).map (·.id)
    match evalWinner room2.players with
    | some w =>
      applyRoomPatch room2
        { game_phase := some "results", game_winner := some (some w)
          elimination_result := some elimMsg
          last_eliminated_player_id := some elimId
          time_left := some 0
          vote_counts := some (some (room.vote_counts.getD [])) } now
    | none =>
      let finalActiveIds := (activePlayers room2.players).map (·.id)
      let room3 :=
        { room2 with
          players := updateEach finalActiveIds
            (fun p => { p with clue := "", has_submitted_clue := false, last_seen := now })
            room2.players
          last_activity := now }
      applyRoomPatch room3
        { game_phase := some "simultaneous_clues", round := some (room3.round + 1)
          time_left := some 20, current_player_index := some 0
          elimination_result := some none, last_eliminated_player_id := some none
          vote_counts := some none } now

/-! ### Generic lemmas about the list/map primitives -/

theorem mapGet_mapSet_self {α : Type} (m : List (String × α)) (k : String) (v : α) :
    mapGet (mapSet m k v) k = some v := by
  induction m with
  | nil => simp [mapGet, mapSet, List.find?_cons_of_pos]
  | cons e es ih =>
    by_cases h : e.1 = k
    · simp [mapGet, mapSet, h, List.find?_cons_of_pos]
    · have hb : (e.1 == k) = false := beq_eq_false_iff_ne.mpr h
      simp only [mapSet, hb, Bool.false_eq_true, if_false]
      simpa [mapGet, List.find?_cons_of_neg, hb] using ih

theorem updateFirstP_map_key {α β : Type} (key : α → β) (pred : α → Bool) (f : α → α)
    (hf : ∀ p, key (f p) = key p) (l : List α) :
    (updateFirstP pred f l).map key = l.map key := by
  induction l with
  | nil => rfl
  | cons q l ih =>
    by_cases h : pred q
    · simp [updateFirstP, h, hf]
    · simp [updateFirstP, h, ih]

theorem updateFirstP_eq_map_of_nodup (pid : String) (f : Player → Player)
    (l : List Player) (h : (l.map (fun p => p.id)).Nodup) :
    updateFirstP (fun p => p.id == pid) f l
      = l.map (fun p => if p.id = pid then f p else p) := by
  induction l with
  | nil => rfl
  | cons q l ih =>
    simp only [List.map_cons, List.nodup_cons] at h
    by_cases hq : q.id = pid
    · have htail : l.map (fun p => if p.id = pid then f p else p) = l := by
        refine (List.map_congr_left ?_).trans (List.map_id l)
        intro p hp
        have hne : p.id ≠ pid := fun hc => h.1 (hq ▸ hc ▸ List.mem_map_of_mem _ hp)
        simp [hne]
      simp [updateFirstP, hq, htail]
    · simp [updateFirstP, hq, ih h.2]

theorem find?_eq_of_mem_of_nodup (l : List Player) (v : Player)
    (hv : v ∈ l) (hnd : (l.map (fun p => p.id)).Nodup) :
    l.find? (fun p => p.id == v.id) = some v := by
  induction l with
  | nil => cases hv
  | cons q l ih =>
    simp only [List.map_cons, List.nodup_cons] at hnd
    rcases List.mem_cons.mp hv with h | h
    · subst h; simp [List.find?_cons_of_pos]
    · have hq : q.id ≠ v.id := by
        intro hc
        exact hnd.1 (hc ▸ List.mem_map_of_mem _ h)
      rw [List.find?_cons_of_neg _ (by simpa using hq)]
      exact ih h hnd.2

theorem updateEach_nil (f : Player → Player) (l : List Player) :
    updateEach [] f l = l := rfl

theorem updateEach_cons (pid : String) (ids : List String) (f : Player → Player)
    (l : List Player) :
    updateEach (pid :: ids) f l
      = updateEach ids f (updateFirstP (fun p => p.id == pid) f l) := rfl

theorem updateEach_skip_head (f : Player → Player) (q : Player) :
    ∀ (ids : List String) (acc : List Player), (∀ pid ∈ ids, pid ≠ q.id) →
      updateEach ids f (q :: acc) = q :: updateEach ids f acc := by
  intro ids
  induction ids with
  | nil => intro acc _; rfl
  | cons i ids ih =>
    intro acc h
    have hiq : ¬(q.id = i) := fun hc => h i (List.mem_cons_self i ids) hc.symm
    rw [updateEach_cons, updateEach_cons]
    have hstep : updateFirstP (fun p => p.id == i) f (q :: acc)
        = q :: updateFirstP (fun p => p.id == i) f acc := by
      simp [updateFirstP, hiq]
    rw [hstep]
    exact ih _ (fun pid hp => h pid (List.mem_cons_of_mem _ hp))

theorem updateEach_filter_eq_map (f : Player → Player) (hf : ∀ p, (f p).id = p.id)
    (P : Player → Bool) (l : List Player) (h : (l.map (fun p => p.id)).Nodup) :
    updateEach ((l.filter P).map (fun p => p.id)) f l
      = l.map (fun p => if P p then f p else p) := by
  induction l with
  | nil => rfl
  | cons q l ih =>
    simp only [List.map_cons, List.nodup_cons] at h
    have hnotin : ∀ pid ∈ (l.filter P).map (fun p => p.id), pid ≠ q.id := by
      intro pid hp hc
      apply h.1
      rcases List.mem_map.mp hp with ⟨p, hpl, hpid⟩
      exact hc ▸ hpid ▸ List.mem_map_of_mem _ (List.mem_of_mem_filter hpl)
    by_cases hq : P q
    · have hids : ((q :: l).filter P).map (fun p => p.id)
          = q.id :: (l.filter P).map (fun p => p.id) := by simp [hq]
      rw [hids, updateEach_cons]
      have hfst : updateFirstP (fun p => p.id == q.id) f (q :: l) = f q :: l := by
        simp [updateFirstP]
      rw [hfst, updateEach_skip_head f (f q) _ l
        (by intro pid hp; rw [hf q]; exact hnotin pid hp)]
      rw [ih h.2]
      simp [hq]
    · have hids : ((q :: l).filter P).map (fun p => p.id)
          = (l.filter P).map (fun p => p.id) := by simp [hq]
      rw [hids, updateEach_skip_head f q _ l hnotin, ih h.2]
      simp [hq]

theorem updateEach_all_eq_map (f : Player → Player) (hf : ∀ p, (f p).id = p.id)
    (l : List Player) (h : (l.map (fun p => p.id)).Nodup) :
    updateEach (l.map (fun p => p.id)) f l = l.map f := by
  have h1 := updateEach_filter_eq_map f hf (fun _ => true) l h
  simpa using h1

/-! ### Sample fixtures used by concrete witnesses -/

/-- A player record with all runtime fields at their initial values. -/
def mkPlayer (id name : String) (isAdmin : Bool) : Player :=
  { id := id, room_id := "ROOM", name := name, is_admin := isAdmin
    word := "", clue := "", votes := 0, is_eliminated := false
    has_voted := false, has_submitted_clue := false, score := 0, last_seen := 0 }

/-- A room record over the given players with default settings. -/
def mkRoom (phase : String) (players : List Player) : Room :=
  { id := "ROOM", players := players
    settings := { totalPlayers := 6, imposterCount := 2, difficulty := "easy", roundTime := 10 }
    game_phase := phase, current_player_index := 0, time_left := 0, round := 1
    vote_counts := none, elimination_result := none, game_winner := none
    last_eliminated_player_id := none, last_activity := 0 }

/-- A one-room store holding the given room under the key "ROOM". -/
def mkStore (room : Room) : MemStore :=
  { rooms := [("ROOM", room)], sessions := [] }

/-! ### C3: phase guards leave the store untouched -/

/-- C3: a clue submission attempted while the room's phase is not the clue
submission phase (`simultaneous_clues`), and a vote submission attempted while
the phase is not `voting`, each return the failure flag `false` (the hook's
`InvalidPhase` signal for gated actions) and leave the store — every room and
player record — unchanged. -/
theorem phase_guard_no_mutation (st : MemStore) (roomCode playerId clue votedPlayerId : String)
    (now : Nat) :
    ((∀ room, getRoomMemory st roomCode = some room → room.game_phase ≠ "simultaneous_clues") →
      submitClue st roomCode playerId clue now = (st, false))
    ∧ ((∀ room, getRoomMemory st roomCode = some room → room.game_phase ≠ "voting") →
      submitVote st roomCode playerId votedPlayerId now = (st, false)) := by
  constructor
  · intro h
    unfold submitClue
    cases hr : getRoomMemory st roomCode with
    | none => rfl
    | some room => simp [h room hr]
  · intro h
    unfold submitVote
    cases hr : getRoomMemory st roomCode with
    | none => rfl
    | some room => simp [h room hr]

/-- Witness for C3 at a concrete lobby room: both guards fire. -/
theorem phase_guard_no_mutation_witness :
    submitClue (mkStore (mkRoom "lobby" [mkPlayer "p1" "Alice" true])) "ROOM" "p1" "hint" 5
        = (mkStore (mkRoom "lobby" [mkPlayer "p1" "Alice" true]), false)
    ∧ submitVote (mkStore (mkRoom "lobby" [mkPlayer "p1" "Alice" true])) "ROOM" "p1" "p1" 5
        = (mkStore (mkRoom "lobby" [mkPlayer "p1" "Alice" true]), false) := by
  have h := phase_guard_no_mutation (mkStore (mkRoom "lobby" [mkPlayer "p1" "Alice" true]))
    "ROOM" "p1" "hint" "p1" 5
  exact ⟨h.1 (by decide), h.2 (by decide)⟩

/-! ### C10: updateSettings ignores the phase and does not clamp -/

/-- C10: for every existing room, in every phase, the hook's `updateSettings`
succeeds, stores the patch merged over the current settings (leaving the other
room fields, in particular the phase, as they were), and performs no clamping:
whatever `imposterCount` the patch carries is stored verbatim, so it can end
up `≥ totalPlayers` mid-game. -/
theorem updateSettings_any_phase_no_clamp (st : MemStore) (roomCode : String)
    (u : SettingsPatch) (now : Nat) (room : Room)
    (hr : getRoomMemory st roomCode = some room) :
    (updateSettings st roomCode u now).2 = true
    ∧ getRoomMemory (updateSettings st roomCode u now).1 roomCode
        = some { room with settings := mergeSettings room.settings u, last_activity := now }
    ∧ (∀ k, u.imposterCount = some k → (mergeSettings room.settings u).imposterCount = k) := by
  have happly : applyRoomPatch room { settings := some (mergeSettings room.settings u) } now
      = { room with settings := mergeSettings room.settings u, last_activity := now } := by
    simp [applyRoomPatch]
  refine ⟨?_, ?_, ?_⟩
  · simp [updateSettings, updateRoomMemory, hr]
  · simp only [updateSettings, updateRoomMemory, hr, happly]
    exact mapGet_mapSet_self _ _ _
  · intro k hk
    simp [mergeSettings, hk]

/-- Witness for C10: in phase `voting`, a patch with `imposterCount = 99` is
stored unclamped (`99 ≥ totalPlayers = 6`). -/
theorem updateSettings_any_phase_no_clamp_witness :
    (updateSettings (mkStore (mkRoom "voting" [mkPlayer "p1" "Alice" true])) "ROOM"
        { imposterCount := some 99 } 5).2 = true
    ∧ getRoomMemory (updateSettings (mkStore (mkRoom "voting" [mkPlayer "p1" "Alice" true])) "ROOM"
        { imposterCount := some 99 } 5).1 "ROOM"
        = some { mkRoom "voting" [mkPlayer "p1" "Alice" true] with
            settings := mergeSettings (mkRoom "voting" [mkPlayer "p1" "Alice" true]).settings
              { imposterCount := some 99 }
            last_activity := 5 }
    ∧ (mergeSettings (mkRoom "voting" [mkPlayer "p1" "Alice" true]).settings
        { imposterCount := some 99 }).imposterCount = 99 := by
  have h := updateSettings_any_phase_no_clamp
    (mkStore (mkRoom "voting" [mkPlayer "p1" "Alice" true])) "ROOM"
    { imposterCount := some 99 } 5 (mkRoom "voting" [mkPlayer "p1" "Alice" true]) (by decide)
  exact ⟨h.1, h.2.1, h.2.2 99 rfl⟩

/-! ### C2: the one-admin invariant is broken by a join that removes an
inactive admin -/

/-- C2 (failing input): "Alice" creates room "ROOM" at time 0 and goes
inactive; at time 200000 (past the 2-minute liveness threshold) a join with
the same case-insensitive name "alice" removes the stale admin *without
promoting anyone* and adds a fresh non-admin player, leaving a non-empty room
with zero admins — the exactly-one-admin invariant is violated at a reachable
state.  (The other two removal sites, `removePlayerMemory` and the cleanup
sweep, do promote `players[0]`.) -/
theorem admin_invariant_broken_by_inactive_join :
    ((createRoomMemory { rooms := [], sessions := [] } "ROOM" "Alice" 0 "p1").toOption.bind
      (fun r => (joinRoomMemory r.1 "ROOM" "alice" 200000 "p2").toOption.map
        (fun r2 => (r2.2.1.players.countP (·.is_admin), r2.2.1.players.length))))
      = some (0, 1) := by decide

/-- Decidable equality for `Except` results. -/
instance exceptDecEq {ε α : Type} [DecidableEq ε] [DecidableEq α] :
    DecidableEq (Except ε α) := fun a b =>
  match a, b with
  | .ok a, .ok b =>
    if h : a = b then isTrue (congrArg Except.ok h)
    else isFalse (fun hc => h (Except.ok.inj hc))
  | .error e, .error f =>
    if h : e = f then isTrue (congrArg Except.error h)
    else isFalse (fun hc => h (Except.error.inj hc))
  | .ok _, .error _ => isFalse (fun hc => Except.noConfusion hc)
  | .error _, .ok _ => isFalse (fun hc => Except.noConfusion hc)

/-! ### C7: joinRoom — reconnect beats RoomFull beats new player -/

/-- C7: on an existing lobby room, (a) when a same-name (trimmed,
case-insensitive) player exists and is active (within the 2-minute liveness
threshold), `joinRoom` reconnects: it returns that player's id with refreshed
`last_seen`/`last_activity` and adds no player — even when the room is at
capacity (no capacity hypothesis is needed); (b) only when no same-name player
exists does `players.length ≥ settings.totalPlayers` fail with the RoomFull
error; (c) when neither applies, a fresh non-admin player is appended. -/
theorem joinRoom_reconnect_roomFull_new (st : MemStore) (roomCode playerName : String)
    (now : Nat) (newId : String) (room : Room)
    (hr : getRoomMemory st roomCode = some room)
    (hphase : room.game_phase = "lobby") :
    (∀ p, room.players.find? (sameNameP playerName.strTrim) = some p →
      ¬(now - p.last_seen > 2 * 60 * 1000) →
      joinRoomMemory st roomCode playerName now newId
        = .ok ({ rooms := mapSet st.rooms roomCode.strUpper
                   { room with
                     players := updateFirstP (sameNameP playerName.strTrim)
                       (fun q => { q with last_seen := now }) room.players
                     last_activity := now }
                 sessions := updateFirstP (fun e => e.1 == p.id)
                   (fun e => (e.1, { e.2 with lastSeen := now })) st.sessions },
               { room with
                 players := updateFirstP (sameNameP playerName.strTrim)
                   (fun q => { q with last_seen := now }) room.players
                 last_activity := now },
               p.id))
    ∧ (room.players.find? (sameNameP playerName.strTrim) = none →
      room.players.length ≥ room.settings.totalPlayers →
      joinRoomMemory st roomCode playerName now newId
        = .error ("Room " ++ roomCode.strUpper ++ " is full ("
            ++ toString room.players.length ++ "/"
            ++ toString room.settings.totalPlayers ++ ")"))
    ∧ (room.players.find? (sameNameP playerName.strTrim) = none →
      room.players.length < room.settings.totalPlayers →
      joinRoomMemory st roomCode playerName now newId
        = .ok ({ rooms := mapSet st.rooms roomCode.strUpper
                   { room with
                     players := room.players ++
                       [{ id := newId, room_id := roomCode.strUpper, name := playerName.strTrim
                          is_admin := false, word := "", clue := "", votes := 0
                          is_eliminated := false, has_voted := false
                          has_submitted_clue := false, score := 0, last_seen := now }]
                     last_activity := now }
                 sessions := mapSet st.sessions newId
                   { roomId := roomCode.strUpper, playerId := newId, lastSeen := now } },
               { room with
                 players := room.players ++
                   [{ id := newId, room_id := roomCode.strUpper, name := playerName.strTrim
                      is_admin := false, word := "", clue := "", votes := 0
                      is_eliminated := false, has_voted := false
                      has_submitted_clue := false, score := 0, last_seen := now }]
                 last_activity := now },
               newId)) := by
  refine ⟨?_, ?_, ?_⟩
  · intro p hfind hactive
    simp only [joinRoomMemory, hr, hphase, ne_eq, not_true_eq_false, if_false, hfind,
      hactive, ite_false]
  · intro hfind hfull
    simp only [joinRoomMemory, hr, hphase, ne_eq, not_true_eq_false, if_false, hfind,
      joinRoomMemoryAsNew]
    simp [hfull]
  · intro hfind hspace
    have hnotfull : ¬(room.players.length ≥ room.settings.totalPlayers) :=
      Nat.not_le.mpr hspace
    simp only [joinRoomMemory, hr, hphase, ne_eq, not_true_eq_false, if_false, hfind,
      joinRoomMemoryAsNew]
    simp [hnotfull]

/-- A lobby room at capacity (2/2), fixture for the C7 witness. -/
def fullLobbyRoom : Room :=
  { mkRoom "lobby" [mkPlayer "p1" "Alice" true, mkPlayer "p2" "Bob" false] with
    settings := { totalPlayers := 2, imposterCount := 1, difficulty := "easy", roundTime := 10 } }

/-- Witness for C7, branch (a): a room at capacity (2/2) still reconnects the
active joiner "bob" to the existing player "Bob" (id `p2`), refreshing its
`last_seen` and adding no player. -/
theorem joinRoom_reconnect_roomFull_new_witness :
    (joinRoomMemory (mkStore fullLobbyRoom) "ROOM" "bob" 1000 "p3").toOption.map
        (fun r => (r.2.2, r.2.1.players.length, r.2.1.players.map (·.last_seen)))
      = some ("p2", 2, [0, 1000]) := by
  have h := joinRoom_reconnect_roomFull_new (mkStore fullLobbyRoom) "ROOM" "bob" 1000 "p3"
    fullLobbyRoom (by decide) (by decide)
  rw [h.1 (mkPlayer "p2" "Bob" false) (by decide) (by decide)]
  decide

/-! ### C6: createRoom idempotence — holds for Supabase, fails for in-memory -/

theorem find?_append_of_none {α : Type} (l₁ l₂ : List α) (p : α → Bool)
    (h : l₁.find? p = none) : (l₁ ++ l₂).find? p = l₂.find? p := by
  induction l₁ with
  | nil => rfl
  | cons a l ih =>
    rw [List.find?_cons] at h
    cases hp : p a with
    | true => rw [hp] at h; cases h
    | false =>
      rw [hp] at h
      rw [List.cons_append, List.find?_cons, hp]
      exact ih h

theorem updateFirstP_append_of_none {α : Type} (l₁ l₂ : List α) (pred : α → Bool)
    (f : α → α) (h : ∀ x ∈ l₁, pred x = false) :
    updateFirstP pred f (l₁ ++ l₂) = l₁ ++ updateFirstP pred f l₂ := by
  induction l₁ with
  | nil => rfl
  | cons a l ih =>
    have ha : pred a = false := h a (List.mem_cons_self a l)
    simp only [List.cons_append, updateFirstP, ha, Bool.false_eq_true, if_false,
      List.cons.injEq, true_and]
    exact ih (fun x hx => h x (List.mem_cons_of_mem _ hx))

/-- C6 (counterexample to the claim as stated), in both backends.  First, in
the in-memory backend a second `createRoom` with the very same code and admin
name does not return the admin's playerId — it unconditionally fails with
"Room code already exists" (`createRoomMemory` has no admin-reconnect path).
Second, even in the Supabase backend the claim fails for a name that trimming
alters: the insert stores `playerName.trim()` (" Alice" becomes "Alice") but
the reconnect match compares the *untrimmed* incoming name, so a second
create with the same name " Alice" fails with the AlreadyExists error instead
of returning the same playerId. -/
theorem createRoom_twice_second_call_fails :
    ((createRoomMemory { rooms := [], sessions := [] } "ROOM" "Alice" 0 "p1").toOption.map
      (fun r => createRoomMemory r.1 "ROOM" "Alice" 5 "p2"))
      = some (.error "Room code already exists")
    ∧ ((createRoomSupabase { game_rooms := [], players := [] } "ROOM" " Alice" 0 "a1").toOption.map
      (fun r => createRoomSupabase r.1 "ROOM" " Alice" 5 "a2"))
      = some (.error "Room code already exists with different admin") := by
  exact ⟨by decide, by decide⟩

/-- C6 (amended): in the *Supabase* backend, calling `createRoom` twice with
the same code and the same (already-trimmed) admin name returns the same
playerId both times and creates no duplicate player: the second call
reconnects the existing admin (refreshing `last_seen`) and the room still has
exactly one player row. -/
theorem createRoomSupabase_idempotent (db : SupaDB) (roomCode playerName : String)
    (now1 now2 : Nat) (id1 id2 : String)
    (hnorow : db.game_rooms.find? (fun r => r.id == roomCode.strUpper) = none)
    (hnoorphans : db.players.filter (fun p => p.room_id == roomCode.strUpper) = [])
    (htrim : playerName.strTrim = playerName)
    (hfresh : ∀ p ∈ db.players, p.id ≠ id1) :
    ∃ db1 room1 db2 room2,
      createRoomSupabase db roomCode playerName now1 id1 = .ok (db1, room1, id1)
      ∧ createRoomSupabase db1 roomCode playerName now2 id2 = .ok (db2, room2, id1)
      ∧ (db2.players.filter (fun p => p.room_id == roomCode.strUpper)).length = 1 := by
  have h1 : createRoomSupabase db roomCode playerName now1 id1
      = .ok ({ game_rooms := db.game_rooms ++ [freshRoomRow roomCode.strUpper now1]
               players := db.players ++ [freshAdmin roomCode.strUpper playerName.strTrim id1 now1] },
             { composeRoom db (freshRoomRow roomCode.strUpper now1) with
               players := [freshAdmin roomCode.strUpper playerName.strTrim id1 now1] },
             id1) := by
    simp only [createRoomSupabase, hnorow]
  have hfind1 : (db.game_rooms ++ [freshRoomRow roomCode.strUpper now1]).find?
      (fun r => r.id == roomCode.strUpper) = some (freshRoomRow roomCode.strUpper now1) := by
    rw [find?_append_of_none _ _ _ hnorow]
    simp [freshRoomRow]
  have hcompose : (composeRoom
      ({ game_rooms := db.game_rooms ++ [freshRoomRow roomCode.strUpper now1]
         players := db.players ++ [freshAdmin roomCode.strUpper playerName.strTrim id1 now1] } : SupaDB)
      (freshRoomRow roomCode.strUpper now1)).players
      = [freshAdmin roomCode.strUpper playerName.strTrim id1 now1] := by
    simp [composeRoom, freshRoomRow, freshAdmin, List.filter_append, hnoorphans]
  have hadminfind : (composeRoom
      ({ game_rooms := db.game_rooms ++ [freshRoomRow roomCode.strUpper now1]
         players := db.players ++ [freshAdmin roomCode.strUpper playerName.strTrim id1 now1] } : SupaDB)
      (freshRoomRow roomCode.strUpper now1)).players.find? (adminNameP playerName)
      = some (freshAdmin roomCode.strUpper playerName.strTrim id1 now1) := by
    rw [hcompose]
    simp [adminNameP, freshAdmin, htrim]
  have h2 : createRoomSupabase
      ({ game_rooms := db.game_rooms ++ [freshRoomRow roomCode.strUpper now1]
         players := db.players ++ [freshAdmin roomCode.strUpper playerName.strTrim id1 now1] } : SupaDB)
      roomCode playerName now2 id2
      = .ok ({ game_rooms := db.game_rooms ++ [freshRoomRow roomCode.strUpper now1]
               players := updateFirstP
                 (fun p => p.id == (freshAdmin roomCode.strUpper playerName.strTrim id1 now1).id)
                 (fun p => { p with last_seen := now2 })
                 (db.players ++ [freshAdmin roomCode.strUpper playerName.strTrim id1 now1]) },
             composeRoom
               ({ game_rooms := db.game_rooms ++ [freshRoomRow roomCode.strUpper now1]
                  players := db.players ++ [freshAdmin roomCode.strUpper playerName.strTrim id1 now1] } : SupaDB)
               (freshRoomRow roomCode.strUpper now1),
             id1) := by
    simp only [createRoomSupabase, hfind1, hadminfind]
    rfl
  have h3 : ((updateFirstP
        (fun p => p.id == (freshAdmin roomCode.strUpper playerName.strTrim id1 now1).id)
        (fun p => { p with last_seen := now2 })
        (db.players ++ [freshAdmin roomCode.strUpper playerName.strTrim id1 now1])).filter
      (fun p => p.room_id == roomCode.strUpper)).length = 1 := by
    rw [updateFirstP_append_of_none _ _ _ _
      (fun x hx => beq_eq_false_iff_ne.mpr (by simpa [freshAdmin] using hfresh x hx))]
    simp [freshAdmin, updateFirstP, List.filter_append, hnoorphans]
  exact ⟨_, _, _, _, h1, h2, h3⟩

/-- Witness for the amended C6 on an empty database. -/
theorem createRoomSupabase_idempotent_witness :
    ((createRoomSupabase { game_rooms := [], players := [] } "ROOM" "Alice" 0 "a1").toOption.bind
      (fun r => (createRoomSupabase r.1 "ROOM" "Alice" 5 "a2").toOption.map
        (fun r2 => (r2.2.2, (r2.1.players.filter (fun p => p.room_id == "ROOM")).length))))
      = some ("a1", 1) := by
  obtain ⟨db1, room1, db2, room2, h1, h2, h3⟩ := createRoomSupabase_idempotent
    { game_rooms := [], players := [] } "ROOM" "Alice" 0 5 "a1" "a2"
    (by decide) (by decide) (by decide) (by intro p hp; cases hp)
  have hup : ("ROOM" : String).strUpper = "ROOM" := by decide
  rw [hup] at h3
  rw [h1]
  show ((createRoomSupabase db1 "ROOM" "Alice" 5 "a2").toOption.map
      (fun r2 => (r2.2.2, (r2.1.players.filter (fun p => p.room_id == "ROOM")).length)))
    = some ("a1", 1)
  rw [h2]
  simp [Except.toOption, h3]

/-! ### C4: tally correctness of the elimination scan -/

theorem le_foldl_max (g : Player → Int) :
    ∀ (l : List Player) (m : Int), m ≤ l.foldl (fun a c => max a (g c)) m := by
  intro l
  induction l with
  | nil => intro m; exact le_refl m
  | cons c l ih =>
    intro m
    exact le_trans (le_max_left m (g c)) (ih (max m (g c)))

theorem foldl_max_ge_mem (g : Player → Int) :
    ∀ (l : List Player) (m : Int) (c : Player), c ∈ l →
      g c ≤ l.foldl (fun a c => max a (g c)) m := by
  intro l
  induction l with
  | nil => intro m c hc; cases hc
  | cons d l ih =>
    intro m c hc
    rcases List.mem_cons.mp hc with h | h
    · subst h
      exact le_trans (le_max_right m (g c)) (le_foldl_max g l _)
    · exact ih _ c h

theorem foldl_max_cases (g : Player → Int) :
    ∀ (l : List Player) (m : Int),
      l.foldl (fun a c => max a (g c)) m = m ∨
        ∃ c ∈ l, l.foldl (fun a c => max a (g c)) m = g c := by
  intro l
  induction l with
  | nil => intro m; exact Or.inl rfl
  | cons d l ih =>
    intro m
    rcases ih (max m (g d)) with h | ⟨c, hc, hcv⟩
    · rcases le_or_lt (g d) m with hle | hlt
      · left
        simpa [max_eq_left hle] using h
      · right
        refine ⟨d, List.mem_cons_self d l, ?_⟩
        simpa [max_eq_right (le_of_lt hlt)] using h
    · exact Or.inr ⟨c, List.mem_cons_of_mem _ hc, hcv⟩

/-- The running `maxVotes`/`playersWithMax` scan computes the maximum tally
and the in-order list of candidates achieving it. -/
theorem tallyFoldGo (g : Player → Int) :
    ∀ (l : List Player) (m : Int) (ps : List Player),
      List.foldl (fun s c =>
          let v := g c
          if v > s.1 then (v, [c]) else if v = s.1 then (s.1, s.2 ++ [c]) else s) (m, ps) l
        = (l.foldl (fun a c => max a (g c)) m,
           (if l.foldl (fun a c => max a (g c)) m = m then ps else [])
             ++ l.filter (fun c => decide (g c = l.foldl (fun a c => max a (g c)) m))) := by
  intro l
  induction l with
  | nil => intro m ps; simp
  | cons c l ih =>
    intro m ps
    have hMge : max m (g c) ≤ l.foldl (fun a c => max a (g c)) (max m (g c)) :=
      le_foldl_max g l _
    rcases lt_trichotomy (g c) m with hlt | heq | hgt
    · -- g c < m: the element is skipped
      have hmax : max m (g c) = m := max_eq_left (le_of_lt hlt)
      have hstep : (List.foldl (fun s c =>
          let v := g c
          if v > s.1 then (v, [c]) else if v = s.1 then (s.1, s.2 ++ [c]) else s) (m, ps) (c :: l))
          = List.foldl (fun s c =>
          let v := g c
          if v > s.1 then (v, [c]) else if v = s.1 then (s.1, s.2 ++ [c]) else s) (m, ps) l := by
        simp [not_lt.mpr (le_of_lt hlt), ne_of_lt hlt]
      rw [hstep, ih m ps]
      have hcM : ¬(g c = l.foldl (fun a c => max a (g c)) m) := by
        intro hc
        have := le_foldl_max g l m
        omega
      rw [List.foldl_cons, hmax]
      rw [List.filter_cons_of_neg (by simpa using hcM)]
    · -- g c = m: the element is appended
      have hmax : max m (g c) = m := max_eq_left (le_of_eq heq)
      have hstep : (List.foldl (fun s c =>
          let v := g c
          if v > s.1 then (v, [c]) else if v = s.1 then (s.1, s.2 ++ [c]) else s) (m, ps) (c :: l))
          = List.foldl (fun s c =>
          let v := g c
          if v > s.1 then (v, [c]) else if v = s.1 then (s.1, s.2 ++ [c]) else s) (m, ps ++ [c]) l := by
        simp [heq]
      rw [hstep, ih m (ps ++ [c]), List.foldl_cons, hmax]
      by_cases hM : l.foldl (fun a c => max a (g c)) m = m
      · rw [if_pos hM, if_pos hM,
          List.filter_cons_of_pos (by simp [heq, hM]), List.append_assoc]
        simp
      · rw [if_neg hM, if_neg hM,
          List.filter_cons_of_neg (by simp; omega)]
    · -- g c > m: the running maximum resets to g c with [c]
      have hmax : max m (g c) = g c := max_eq_right (le_of_lt hgt)
      have hstep : (List.foldl (fun s c =>
          let v := g c
          if v > s.1 then (v, [c]) else if v = s.1 then (s.1, s.2 ++ [c]) else s) (m, ps) (c :: l))
          = List.foldl (fun s c =>
          let v := g c
          if v > s.1 then (v, [c]) else if v = s.1 then (s.1, s.2 ++ [c]) else s) (g c, [c]) l := by
        simp [hgt]
      rw [hstep, ih (g c) [c], List.foldl_cons, hmax]
      have hMne : ¬(l.foldl (fun a c => max a (g c)) (g c) = m) := by
        have := le_foldl_max g l (g c)
        omega
      rw [if_neg hMne]
      by_cases hcM : l.foldl (fun a c => max a (g c)) (g c) = g c
      · rw [if_pos hcM, List.filter_cons_of_pos (by simp [hcM])]
        simp
      · rw [if_neg hcM, List.filter_cons_of_neg (by simp; omega)]

/-- The final `maxVotes` of the elimination scan. -/
def maxTally (voteCounts : Option (List (String × Nat))) (candidates : List Player) : Int :=
  candidates.foldl (fun a c => max a ((snapshotVotes voteCounts c : Int))) (-1)

theorem tallyScan_spec (vc : Option (List (String × Nat))) (cands : List Player) :
    tallyScan vc cands
      = (maxTally vc cands,
         cands.filter (fun c => decide ((snapshotVotes vc c : Int) = maxTally vc cands))) := by
  have h := tallyFoldGo (fun c => ((snapshotVotes vc c : Int))) cands (-1) []
  have h2 : tallyScan vc cands
      = (maxTally vc cands,
         (if maxTally vc cands = -1 then ([] : List Player) else [])
           ++ cands.filter (fun c => decide ((snapshotVotes vc c : Int) = maxTally vc cands))) := h
  rw [h2, ite_self, List.nil_append]

theorem eliminationTarget_spec (vc : Option (List (String × Nat))) (cands : List Player) :
    eliminationTarget vc cands
      = (if maxTally vc cands > 0
            ∧ (cands.filter (fun c => decide ((snapshotVotes vc c : Int) = maxTally vc cands))).length = 1
         then (cands.filter (fun c => decide ((snapshotVotes vc c : Int) = maxTally vc cands))).head?
         else none) := by
  rw [eliminationTarget, tallyScan_spec]

theorem filter_eq_singleton_of_unique (P : Player → Bool) (l : List Player) (p : Player)
    (hp : p ∈ l) (hPp : P p = true) (huniq : ∀ q ∈ l, P q = true → q = p) (hnd : l.Nodup) :
    l.filter P = [p] := by
  induction l with
  | nil => cases hp
  | cons q l ih =>
    rw [List.nodup_cons] at hnd
    rcases List.mem_cons.mp hp with h | h
    · subst h
      rw [List.filter_cons_of_pos hPp]
      have htail : l.filter P = [] := by
        rw [List.filter_eq_nil_iff]
        intro a ha hPa
        exact hnd.1 ((huniq a (List.mem_cons_of_mem _ ha) hPa) ▸ ha)
      rw [htail]
    · have hPq : ¬(P q = true) := by
        intro hq
        have := huniq q (List.mem_cons_self q l) hq
        exact hnd.1 (this ▸ h)
      rw [List.filter_cons_of_neg (by simpa using hPq)]
      exact ih h (fun r hr hPr => huniq r (List.mem_cons_of_mem _ hr) hPr) hnd.2

/-- C4: over the active candidates and a fixed `voteCounts` snapshot, a unique
positive maximum eliminates exactly its holder; a tie for the maximum between
two candidates, or an all-zero snapshot, eliminates no one. -/
theorem tally_elimination_correct (vc : Option (List (String × Nat))) (cands : List Player)
    (hnd : cands.Nodup) :
    (∀ p, p ∈ cands → 0 < snapshotVotes vc p →
        (∀ q, q ∈ cands → q ≠ p → snapshotVotes vc q < snapshotVotes vc p) →
        eliminationTarget vc cands = some p)
    ∧ (∀ p q, p ∈ cands → q ∈ cands → p ≠ q →
        snapshotVotes vc p = snapshotVotes vc q →
        (∀ r, r ∈ cands → snapshotVotes vc r ≤ snapshotVotes vc p) →
        eliminationTarget vc cands = none)
    ∧ ((∀ p, p ∈ cands → snapshotVotes vc p = 0) → eliminationTarget vc cands = none) := by
  refine ⟨?_, ?_, ?_⟩
  · intro p hp hpos huniq
    have hMge : ((snapshotVotes vc p : Int)) ≤ maxTally vc cands :=
      foldl_max_ge_mem _ cands (-1) p hp
    have hMp : maxTally vc cands = (snapshotVotes vc p : Int) := by
      rcases foldl_max_cases (fun c => ((snapshotVotes vc c : Int))) cands (-1) with h | ⟨c, hc, hcv⟩
      · exfalso
        have : maxTally vc cands = -1 := h
        omega
      · have hcv' : maxTally vc cands = (snapshotVotes vc c : Int) := hcv
        by_cases hcp : c = p
        · subst hcp; exact hcv'
        · have := huniq c hc hcp
          omega
    have hfilter : cands.filter (fun c => decide ((snapshotVotes vc c : Int) = maxTally vc cands))
        = [p] := by
      refine filter_eq_singleton_of_unique _ cands p hp (by simp [hMp]) ?_ hnd
      intro q hq hq2
      by_contra hqp
      have h1 : (snapshotVotes vc q : Int) = maxTally vc cands := by simpa using hq2
      have h2 := huniq q hq hqp
      omega
    rw [eliminationTarget_spec, hfilter, if_pos ⟨by omega, rfl⟩]
    rfl
  · intro p q hp hq hpq hsame hmax
    have hMge : ((snapshotVotes vc p : Int)) ≤ maxTally vc cands :=
      foldl_max_ge_mem _ cands (-1) p hp
    have hMp : maxTally vc cands = (snapshotVotes vc p : Int) := by
      rcases foldl_max_cases (fun c => ((snapshotVotes vc c : Int))) cands (-1) with h | ⟨c, hc, hcv⟩
      · have : maxTally vc cands = -1 := h
        omega
      · have hcv' : maxTally vc cands = (snapshotVotes vc c : Int) := hcv
        have := hmax c hc
        omega
    have hmemp : p ∈ cands.filter
        (fun c => decide ((snapshotVotes vc c : Int) = maxTally vc cands)) :=
      List.mem_filter.mpr ⟨hp, by simp [hMp]⟩
    have hmemq : q ∈ cands.filter
        (fun c => decide ((snapshotVotes vc c : Int) = maxTally vc cands)) :=
      List.mem_filter.mpr ⟨hq, by simp [hMp]; omega⟩
    have hlen : (cands.filter
        (fun c => decide ((snapshotVotes vc c : Int) = maxTally vc cands))).length ≠ 1 := by
      intro hone
      match hflt : cands.filter
          (fun c => decide ((snapshotVotes vc c : Int) = maxTally vc cands)), hone with
      | [x], _ =>
        rw [hflt] at hmemp hmemq
        have hpx : p = x := by simpa using hmemp
        have hqx : q = x := by simpa using hmemq
        exact hpq (hpx.trans hqx.symm)
    rw [eliminationTarget_spec, if_neg (fun hcon => hlen hcon.2)]
  · intro hzero
    have hle : ¬(maxTally vc cands > 0) := by
      rcases foldl_max_cases (fun c => ((snapshotVotes vc c : Int))) cands (-1) with h | ⟨c, hc, hcv⟩
      · have : maxTally vc cands = -1 := h
        omega
      · have hcv' : maxTally vc cands = (snapshotVotes vc c : Int) := hcv
        have := hzero c hc
        omega
    rw [eliminationTarget_spec, if_neg (fun hcon => hle hcon.1)]

/-- Witness for C4: with snapshot `a1 ↦ 2, a2 ↦ 1` over two active candidates,
exactly the unique maximum holder `a1` is eliminated. -/
theorem tally_elimination_correct_witness :
    eliminationTarget (some [("a1", 2), ("a2", 1)]) [mkPlayer "a1" "Ann" true, mkPlayer "a2" "Ben" false]
      = some (mkPlayer "a1" "Ann" true) := by
  have h := tally_elimination_correct (some [("a1", 2), ("a2", 1)])
    [mkPlayer "a1" "Ann" true, mkPlayer "a2" "Ben" false] (by decide)
  exact h.1 (mkPlayer "a1" "Ann" true) (by decide) (by decide) (by decide)

/-! ### C5: win evaluation after elimination -/

theorem activeImposterCount_eq_zero_of_no_word (players : List Player)
    (h : (derivedWords players).2 = "") : activeImposterCount players = 0 := by
  unfold activeImposterCount
  simp [h]

/-- C5: with `M` the active holders of the derived majority word and `I` the
active holders of the derived imposter word (zero whenever no imposter word
exists, and in particular whenever no active player remains), the win
evaluation returns `majority` whenever `I = 0`, `imposters` whenever `M = 0`
with imposters present or `I ≥ M` with `I > 0`, and `none` (game continues)
when `0 < I < M`.  This holds for every player list, with no restriction on
the number of remaining active players. -/
theorem win_evaluation_correct (players : List Player) :
    (activeImposterCount players = 0 → evalWinner players = some "majority")
    ∧ (activeMajorityCount players = 0 → 0 < activeImposterCount players →
        evalWinner players = some "imposters")
    ∧ (0 < activeImposterCount players →
        activeMajorityCount players ≤ activeImposterCount players →
        evalWinner players = some "imposters")
    ∧ (0 < activeImposterCount players → 0 < activeMajorityCount players →
        activeImposterCount players < activeMajorityCount players →
        evalWinner players = none) := by
  refine ⟨?_, ?_, ?_, ?_⟩
  · intro hI
    unfold evalWinner
    rw [if_pos (Or.inr hI)]
  · intro hM hI
    have himp : ¬((derivedWords players).2 = "" ∨ activeImposterCount players = 0) := by
      rintro (h | h)
      · have := activeImposterCount_eq_zero_of_no_word players h
        omega
      · omega
    unfold evalWinner
    rw [if_neg himp, if_pos hM]
  · intro hI hMle
    have himp : ¬((derivedWords players).2 = "" ∨ activeImposterCount players = 0) := by
      rintro (h | h)
      · have := activeImposterCount_eq_zero_of_no_word players h
        omega
      · omega
    unfold evalWinner
    rw [if_neg himp]
    by_cases hM0 : activeMajorityCount players = 0
    · rw [if_pos hM0]
    · rw [if_neg hM0, if_pos ⟨hI, hMle⟩]
  · intro hI hM hlt
    have himp : ¬((derivedWords players).2 = "" ∨ activeImposterCount players = 0) := by
      rintro (h | h)
      · have := activeImposterCount_eq_zero_of_no_word players h
        omega
      · omega
    unfold evalWinner
    rw [if_neg himp, if_neg (by omega), if_neg (fun hcon => by omega)]

/-- Witness for C5: three active players all holding "Dog" (no imposter word
exists, `I = 0`) make the majority win. -/
theorem win_evaluation_correct_witness :
    evalWinner [{ mkPlayer "a1" "Ann" true with word := "Dog" },
        { mkPlayer "a2" "Ben" false with word := "Dog" },
        { mkPlayer "a3" "Cy" false with word := "Dog" }]
      = some "majority" := by
  have h := win_evaluation_correct
    [{ mkPlayer "a1" "Ann" true with word := "Dog" },
     { mkPlayer "a2" "Ben" false with word := "Dog" },
     { mkPlayer "a3" "Cy" false with word := "Dog" }]
  exact h.1 (by decide)

/-! ### C9: self-voting is accepted and counted -/

theorem getRoomMemory_after_set (st : MemStore) (roomCode : String) (r : Room)
    (sess : List (String × PlayerSession)) :
    getRoomMemory { rooms := mapSet st.rooms roomCode.strUpper r, sessions := sess } roomCode
      = some r :=
  mapGet_mapSet_self st.rooms roomCode.strUpper r

theorem updatePlayerMemory_spec (st : MemStore) (roomCode pid : String) (u : PlayerPatch)
    (now : Nat) (room : Room)
    (hr : getRoomMemory st roomCode = some room)
    (hmem : room.players.any (fun p => p.id == pid) = true) :
    ∃ st' room', updatePlayerMemory st roomCode pid u now = some (st', room')
      ∧ getRoomMemory st' roomCode = some room'
      ∧ room' = { room with
          players := updateFirstP (fun p => p.id == pid)
            (fun p => applyPlayerPatch p u now) room.players
          last_activity := now } := by
  have h : updatePlayerMemory st roomCode pid u now
      = some ({ rooms := mapSet st.rooms roomCode.strUpper
                  { room with
                    players := updateFirstP (fun p => p.id == pid)
                      (fun p => applyPlayerPatch p u now) room.players
                    last_activity := now }
                sessions := updateFirstP (fun e => e.1 == pid)
                  (fun e => (e.1, { e.2 with lastSeen := now })) st.sessions },
              { room with
                players := updateFirstP (fun p => p.id == pid)
                  (fun p => applyPlayerPatch p u now) room.players
                last_activity := now }) := by
    simp only [updatePlayerMemory, roomUpdatePlayer, hr, hmem, if_true]
  exact ⟨_, _, h, getRoomMemory_after_set _ _ _ _, rfl⟩

theorem updateRoomMemory_spec (st : MemStore) (roomCode : String) (u : RoomPatch)
    (now : Nat) (room : Room)
    (hr : getRoomMemory st roomCode = some room) :
    ∃ st', updateRoomMemory st roomCode u now = some (st', applyRoomPatch room u now)
      ∧ getRoomMemory st' roomCode = some (applyRoomPatch room u now) := by
  have h : updateRoomMemory st roomCode u now
      = some ({ st with rooms := mapSet st.rooms roomCode.strUpper (applyRoomPatch room u now) },
              applyRoomPatch room u now) := by
    simp only [updateRoomMemory, hr]
  exact ⟨_, h, getRoomMemory_after_set _ _ _ _⟩

theorem any_id_congr (l₁ l₂ : List Player)
    (h : l₁.map (fun p => p.id) = l₂.map (fun p => p.id)) (pid : String) :
    l₁.any (fun p => p.id == pid) = l₂.any (fun p => p.id == pid) := by
  have e : ∀ (l : List Player),
      l.any (fun p => p.id == pid) = (l.map (fun p => p.id)).any (fun i => i == pid) := by
    intro l
    induction l with
    | nil => rfl
    | cons a t ih => simp [List.any_cons, ih]
  rw [e, e, h]

/-- C9: during the `voting` phase a not-yet-voted player may vote for
themself; `submitVote` accepts the self-vote (returns `true`) and counts it
exactly as any other vote — the voter's record afterwards carries `votes + 1`
and `has_voted = true`.  No validation distinguishes the self-vote case. -/
theorem self_vote_allowed (st : MemStore) (roomCode : String) (now : Nat) (room : Room)
    (v : Player)
    (hr : getRoomMemory st roomCode = some room)
    (hphase : room.game_phase = "voting")
    (hv : v ∈ room.players)
    (hnd : (room.players.map (fun p => p.id)).Nodup)
    (hnv : v.has_voted = false) :
    (submitVote st roomCode v.id v.id now).2 = true
    ∧ ∃ room', getRoomMemory (submitVote st roomCode v.id v.id now).1 roomCode = some room'
        ∧ ∃ v', v' ∈ room'.players
            ∧ v'.id = v.id ∧ v'.votes = v.votes + 1 ∧ v'.has_voted = true := by
  have hid_patch : ∀ (u : PlayerPatch) (p : Player), (applyPlayerPatch p u now).id = p.id :=
    fun u p => rfl
  have hfind := find?_eq_of_mem_of_nodup room.players v hv hnd
  have hmem1 : room.players.any (fun p => p.id == v.id) = true :=
    List.any_eq_true.mpr ⟨v, hv, by simp⟩
  obtain ⟨st1, room1, hu1, hr1, hroom1⟩ :=
    updatePlayerMemory_spec st roomCode v.id { votes := some (v.votes + 1) } now room hr hmem1
  have hids1 : room1.players.map (fun p => p.id) = room.players.map (fun p => p.id) := by
    rw [hroom1]
    exact updateFirstP_map_key (fun p => p.id) (fun p => p.id == v.id)
      (fun p => applyPlayerPatch p { votes := some (v.votes + 1) } now)
      (hid_patch _) room.players
  have hmem2 : room1.players.any (fun p => p.id == v.id) = true := by
    rw [any_id_congr _ room.players hids1]
    exact hmem1
  obtain ⟨st2, room2, hu2, hr2, hroom2⟩ :=
    updatePlayerMemory_spec st1 roomCode v.id { has_voted := some true } now room1 hr1 hmem2
  -- the voter's record after both updates is a member of room2.players
  have hnd1 : (room1.players.map (fun p => p.id)).Nodup := by
    rw [hids1]; exact hnd
  have hv2 : applyPlayerPatch (applyPlayerPatch v { votes := some (v.votes + 1) } now)
      { has_voted := some true } now ∈ room2.players := by
    rw [hroom2, updateFirstP_eq_map_of_nodup _ _ _ hnd1]
    have hv1 : applyPlayerPatch v { votes := some (v.votes + 1) } now ∈ room1.players := by
      rw [hroom1, updateFirstP_eq_map_of_nodup _ _ _ hnd]
      have := List.mem_map_of_mem (fun p => if p.id = v.id
          then applyPlayerPatch p { votes := some (v.votes + 1) } now else p) hv
      simpa using this
    have := List.mem_map_of_mem (fun p => if p.id = v.id
        then applyPlayerPatch p { has_voted := some true } now else p) hv1
    simpa [applyPlayerPatch] using this
  simp only [submitVote, hr, hphase, ne_eq, not_true_eq_false, if_false, hfind,
    Option.map_some', Option.getD_some, hnv, Bool.false_eq_true, hu1, hu2, hr2]
  split
  · -- all active players voted: the room also flips to reveal_votes
    obtain ⟨st3, hu3, hr3⟩ := updateRoomMemory_spec st2 roomCode
      { game_phase := some "reveal_votes"
        vote_counts := some (some (room2.players.map (fun p => (p.id, p.votes))))
        time_left := some 7
        elimination_result := some none
        last_eliminated_player_id := some none
        game_winner := some none } now room2 hr2
    rw [hu3]
    refine ⟨rfl, _, hr3, ?_⟩
    exact ⟨applyPlayerPatch (applyPlayerPatch v { votes := some (v.votes + 1) } now)
      { has_voted := some true } now, hv2, rfl,
      by simp [applyPlayerPatch], by simp [applyPlayerPatch]⟩
  · -- not all voted yet: only the two player updates landed
    refine ⟨rfl, _, hr2, ?_⟩
    exact ⟨applyPlayerPatch (applyPlayerPatch v { votes := some (v.votes + 1) } now)
      { has_voted := some true } now, hv2, rfl,
      by simp [applyPlayerPatch], by simp [applyPlayerPatch]⟩

/-- Witness for C9: in a two-player voting round, `a1` votes for themself; the
vote is accepted and `a1` ends with one vote and `has_voted = true`. -/
theorem self_vote_allowed_witness :
    (submitVote (mkStore (mkRoom "voting"
        [mkPlayer "a1" "Ann" true, mkPlayer "a2" "Ben" false])) "ROOM" "a1" "a1" 9).2 = true
    ∧ ∃ room', getRoomMemory (submitVote (mkStore (mkRoom "voting"
          [mkPlayer "a1" "Ann" true, mkPlayer "a2" "Ben" false])) "ROOM" "a1" "a1" 9).1 "ROOM"
        = some room'
        ∧ ∃ v', v' ∈ room'.players ∧ v'.id = "a1" ∧ v'.votes = 0 + 1 ∧ v'.has_voted = true := by
  have h := self_vote_allowed (mkStore (mkRoom "voting"
      [mkPlayer "a1" "Ann" true, mkPlayer "a2" "Ben" false])) "ROOM" 9
    (mkRoom "voting" [mkPlayer "a1" "Ann" true, mkPlayer "a2" "Ben" false])
    (mkPlayer "a1" "Ann" true) (by decide) (by decide) (by decide) (by decide) (by decide)
  exact h

/-! ### C1: word-assignment counts in startGame -/

theorem generateWords_ne (difficulty : String) (r : Nat) :
    (generateWords difficulty r).1 ≠ (generateWords difficulty r).2 := by
  rcases Nat.mod_two_eq_zero_or_one r with h | h <;>
    by_cases he : difficulty == "easy" <;>
    by_cases hm : difficulty == "medium" <;>
    by_cases hh : difficulty == "hard" <;>
    simp [generateWords, he, hm, hh, wordPairsEasy, wordPairsMedium, wordPairsHard, h]

theorem fisherYatesShuffle_nodup (n : Nat) (choices : Nat → Nat) :
    (fisherYatesShuffle n choices).Nodup := by
  unfold fisherYatesShuffle
  exact List.Nodup.map
    (Function.Injective.comp Fin.val_injective (fyPerm n choices (n - 1)).injective)
    (List.nodup_finRange n)

theorem fisherYatesShuffle_mem_lt (n : Nat) (choices : Nat → Nat) (x : Nat)
    (hx : x ∈ fisherYatesShuffle n choices) : x < n := by
  unfold fisherYatesShuffle at hx
  rcases List.mem_map.mp hx with ⟨k, _, hk⟩
  exact hk ▸ ((fyPerm n choices (n - 1)) k).isLt

theorem fisherYatesShuffle_length (n : Nat) (choices : Nat → Nat) :
    (fisherYatesShuffle n choices).length = n := by
  simp [fisherYatesShuffle]

theorem filter_mem_range_length (t : List Nat) (n : Nat) (hnd : t.Nodup)
    (hb : ∀ x ∈ t, x < n) :
    ((List.range n).filter (fun i => decide (i ∈ t))).length = t.length := by
  have hperm : List.Perm ((List.range n).filter (fun i => decide (i ∈ t))) t := by
    rw [List.perm_ext_iff_of_nodup ((List.nodup_range n).filter _) hnd]
    intro a
    simp only [List.mem_filter, List.mem_range, decide_eq_true_eq]
    constructor
    · exact fun h => h.2
    · exact fun h => ⟨hb a h, h⟩
  exact hperm.length_eq

theorem count_map_ite (t : List Nat) (maj imp : String) (hne : maj ≠ imp) :
    ∀ (l : List Nat),
      ((l.map (fun i => if i ∈ t then imp else maj)).count imp
          = (l.filter (fun i => decide (i ∈ t))).length)
      ∧ ((l.map (fun i => if i ∈ t then imp else maj)).count maj
          = (l.filter (fun i => !(decide (i ∈ t)))).length) := by
  intro l
  induction l with
  | nil => exact ⟨rfl, rfl⟩
  | cons a l ih =>
    by_cases ha : a ∈ t
    · constructor
      · simp [List.count_cons, ha, ih.1]
      · simp [List.count_cons, ha, ih.2, hne]
    · constructor
      · simp [List.count_cons, ha, ih.1, Ne.symm hne]
      · simp [List.count_cons, ha, ih.2]

theorem filter_not_length (p : Nat → Bool) :
    ∀ (l : List Nat), (l.filter (fun i => !(p i))).length = l.length - (l.filter p).length := by
  intro l
  induction l with
  | nil => rfl
  | cons a l ih =>
    have hle := List.length_filter_le p l
    by_cases ha : p a = true
    · rw [List.filter_cons_of_neg (by simp [ha]), List.filter_cons_of_pos ha]
      simp only [List.length_cons]
      omega
    · have ha' : p a = false := by simpa using ha
      rw [List.filter_cons_of_pos (by simp [ha']), List.filter_cons_of_neg (by simp [ha'])]
      simp only [List.length_cons]
      omega

/-- C1: the word-assignment step of `startGame` hands the imposter word to
exactly `min(settings.imposterCount, floor(playerCount / 2))` players and the
majority word to the remaining `playerCount - min(…)` players, for every
outcome of the Fisher-Yates shuffle and every word pair `generateWords`
produces (the table pairs are all distinct). -/
theorem startGame_word_counts (totalPlayers settingsImposterCount n : Nat)
    (difficulty : String) (r : Nat) (choices : Nat → Nat)
    (hplayers : 2 ≤ n) (htp : 2 ≤ totalPlayers)
    (hic1 : 1 ≤ settingsImposterCount) (hic2 : settingsImposterCount ≤ totalPlayers / 2) :
    (startGameAssignedWords n settingsImposterCount choices
        (generateWords difficulty r).1 (generateWords difficulty r).2).count
        (generateWords difficulty r).2
      = min settingsImposterCount (n / 2)
    ∧ (startGameAssignedWords n settingsImposterCount choices
        (generateWords difficulty r).1 (generateWords difficulty r).2).count
        (generateWords difficulty r).1
      = n - min settingsImposterCount (n / 2) := by
  have hne := generateWords_ne difficulty r
  have hndt : ((fisherYatesShuffle n choices).take
      (min settingsImposterCount (n / 2))).Nodup :=
    (List.take_sublist _ _).nodup (fisherYatesShuffle_nodup n choices)
  have hbt : ∀ x ∈ (fisherYatesShuffle n choices).take (min settingsImposterCount (n / 2)),
      x < n := fun x hx =>
    fisherYatesShuffle_mem_lt n choices x (List.mem_of_mem_take hx)
  have hlent : ((fisherYatesShuffle n choices).take
      (min settingsImposterCount (n / 2))).length = min settingsImposterCount (n / 2) := by
    rw [List.length_take, fisherYatesShuffle_length]
    exact Nat.min_eq_left (le_trans (Nat.min_le_right _ _) (Nat.div_le_self n 2))
  have hcount := count_map_ite
    ((fisherYatesShuffle n choices).take (min settingsImposterCount (n / 2)))
    (generateWords difficulty r).1 (generateWords difficulty r).2 hne (List.range n)
  have hfilter := filter_mem_range_length
    ((fisherYatesShuffle n choices).take (min settingsImposterCount (n / 2))) n hndt hbt
  have hnotfilter := filter_not_length
    (fun i => decide (i ∈ (fisherYatesShuffle n choices).take
      (min settingsImposterCount (n / 2)))) (List.range n)
  constructor
  · show ((List.range n).map (fun i => if i ∈ (fisherYatesShuffle n choices).take
        (min settingsImposterCount (n / 2)) then (generateWords difficulty r).2
        else (generateWords difficulty r).1)).count (generateWords difficulty r).2
      = min settingsImposterCount (n / 2)
    rw [hcount.1, hfilter, hlent]
  · show ((List.range n).map (fun i => if i ∈ (fisherYatesShuffle n choices).take
        (min settingsImposterCount (n / 2)) then (generateWords difficulty r).2
        else (generateWords difficulty r).1)).count (generateWords difficulty r).1
      = n - min settingsImposterCount (n / 2)
    rw [hcount.2, hnotfilter, hfilter, hlent, List.length_range]

/-- Witness for C1: 5 players, settings pair (6, 2), easy difficulty, a
concrete shuffle — exactly 2 players hold "Wolf" and 3 hold "Dog". -/
theorem startGame_word_counts_witness :
    (startGameAssignedWords 5 2 (fun _ => 0)
        (generateWords "easy" 0).1 (generateWords "easy" 0).2).count
        (generateWords "easy" 0).2 = min 2 (5 / 2)
    ∧ (startGameAssignedWords 5 2 (fun _ => 0)
        (generateWords "easy" 0).1 (generateWords "easy" 0).2).count
        (generateWords "easy" 0).1 = 5 - min 2 (5 / 2) := by
  exact startGame_word_counts 6 2 5 "easy" 0 (fun _ => 0)
    (by decide) (by decide) (by decide) (by decide)

/-! ### C8: non-terminal vote_reveal cycles -/

theorem applyPlayerPatch_id (p : Player) (u : PlayerPatch) (now : Nat) :
    (applyPlayerPatch p u now).id = p.id := rfl

theorem eliminationTarget_mem (vc : Option (List (String × Nat))) (cands : List Player)
    (t : Player) (h : eliminationTarget vc cands = some t) : t ∈ cands := by
  rw [eliminationTarget_spec] at h
  split at h
  · have ht : t ∈ cands.filter
        (fun c => decide ((snapshotVotes vc c : Int) = maxTally vc cands)) := by
      cases hl : cands.filter
          (fun c => decide ((snapshotVotes vc c : Int) = maxTally vc cands)) with
      | nil => rw [hl] at h; cases h
      | cons a l =>
        rw [hl] at h
        simp only [List.head?_cons, Option.some.injEq] at h
        subst h
        exact List.mem_cons_self a l
    exact List.mem_of_mem_filter ht
  · cases h

/-- C8: a vote_reveal cycle in which the win evaluation finds no winner
increments `round` by exactly 1, returns the phase to the clue-submission
phase (`simultaneous_clues`), clears `clue`/`has_submitted_clue` for every
player that is active afterwards, and carries every player that was already
eliminated at the start of the cycle into the next round with `word`, `clue`,
`has_submitted_clue`, `is_eliminated` and `score` unchanged. -/
theorem round_progression (room : Room) (now : Nat)
    (hphase : room.game_phase = "reveal_votes")
    (hnd : (room.players.map (fun p => p.id)).Nodup)
    (hnowin : evalWinner (resetAllVotes (room.players.map (fun p => p.id))
        (applyElimination room now) now).players = none) :
    (adminProcessElimination room now).round = room.round + 1
    ∧ (adminProcessElimination room now).game_phase = "simultaneous_clues"
    ∧ (∀ p', p' ∈ (adminProcessElimination room now).players → p'.is_eliminated = false →
        p'.clue = "" ∧ p'.has_submitted_clue = false)
    ∧ (∀ p, p ∈ room.players → p.is_eliminated = true →
        ∃ p', p' ∈ (adminProcessElimination room now).players ∧ p'.id = p.id
          ∧ p'.word = p.word ∧ p'.clue = p.clue
          ∧ p'.has_submitted_clue = p.has_submitted_clue ∧ p'.is_eliminated = true
          ∧ p'.score = p.score) := by
  -- facts about the elimination stage
  have hany : ∀ t, eliminationTarget room.vote_counts (activePlayers room.players) = some t →
      room.players.any (fun p => p.id == t.id) = true := by
    intro t ht
    exact List.any_eq_true.mpr
      ⟨t, List.mem_of_mem_filter (eliminationTarget_mem _ _ _ ht), by simp⟩
  have hround1 : (applyElimination room now).round = room.round := by
    unfold applyElimination
    cases h : eliminationTarget room.vote_counts (activePlayers room.players) with
    | none => rfl
    | some t => simp [roomUpdatePlayer, hany t h]
  have hids1 : (applyElimination room now).players.map (fun p => p.id)
      = room.players.map (fun p => p.id) := by
    unfold applyElimination
    cases h : eliminationTarget room.vote_counts (activePlayers room.players) with
    | none => rfl
    | some t =>
      simp only [roomUpdatePlayer, hany t h, if_true, Option.getD_some]
      exact updateFirstP_map_key (fun p => p.id) (fun p => p.id == t.id)
        (fun p => applyPlayerPatch p { is_eliminated := some true } now)
        (fun p => applyPlayerPatch_id p _ now) room.players
  have helim1 : ∀ p, p ∈ room.players → p.is_eliminated = true →
      p ∈ (applyElimination room now).players := by
    intro p hp hpe
    unfold applyElimination
    cases h : eliminationTarget room.vote_counts (activePlayers room.players) with
    | none => exact hp
    | some t =>
      simp only [roomUpdatePlayer, hany t h, if_true, Option.getD_some]
      rw [updateFirstP_eq_map_of_nodup _ _ _ hnd]
      have htmem := eliminationTarget_mem _ _ _ h
      have hte : t.is_eliminated = false := by
        have := (List.mem_filter.mp htmem).2
        simpa using this
      have hne : ¬(p.id = t.id) := by
        intro hc
        have := List.inj_on_of_nodup_map hnd hp (List.mem_of_mem_filter htmem) hc
        rw [this] at hpe
        rw [hpe] at hte
        cases hte
      have := List.mem_map_of_mem
        (fun q => if q.id = t.id then applyPlayerPatch q { is_eliminated := some true } now
          else q) hp
      simpa [hne] using this
  -- the vote-reset stage, in map form
  have h2map : (resetAllVotes (room.players.map (fun p => p.id))
        (applyElimination room now) now).players
      = (applyElimination room now).players.map
          (fun p => { p with votes := 0, has_voted := false, last_seen := now }) := by
    show updateEach (room.players.map (fun p => p.id))
        (fun p => { p with votes := 0, has_voted := false, last_seen := now })
        (applyElimination room now).players = _
    rw [← hids1]
    exact updateEach_all_eq_map
      (fun p => { p with votes := 0, has_voted := false, last_seen := now })
      (fun p => rfl) _ (hids1 ▸ hnd)
  have hids2 : (resetAllVotes (room.players.map (fun p => p.id))
        (applyElimination room now) now).players.map (fun p => p.id)
      = room.players.map (fun p => p.id) := by
    rw [h2map, List.map_map]
    rw [show ((fun p : Player => p.id) ∘
        (fun p => { p with votes := 0, has_voted := false, last_seen := now }))
      = (fun p : Player => p.id) from rfl]
    exact hids1
  have hnd2 : ((resetAllVotes (room.players.map (fun p => p.id))
        (applyElimination room now) now).players.map (fun p => p.id)).Nodup := by
    rw [hids2]; exact hnd
  -- the clue-reset stage, in map form
  have h3map : updateEach ((activePlayers (resetAllVotes (room.players.map (fun p => p.id))
          (applyElimination room now) now).players).map (fun p => p.id))
        (fun p => { p with clue := "", has_submitted_clue := false, last_seen := now })
        (resetAllVotes (room.players.map (fun p => p.id))
          (applyElimination room now) now).players
      = (resetAllVotes (room.players.map (fun p => p.id))
          (applyElimination room now) now).players.map
          (fun p => if !p.is_eliminated
            then { p with clue := "", has_submitted_clue := false, last_seen := now } else p) := by
    show updateEach (((resetAllVotes (room.players.map (fun p => p.id))
          (applyElimination room now) now).players.filter (fun p => !p.is_eliminated)).map
          (fun p => p.id)) _ _ = _
    exact updateEach_filter_eq_map
      (fun p => { p with clue := "", has_submitted_clue := false, last_seen := now })
      (fun p => rfl) (fun p => !p.is_eliminated) _ hnd2
  -- evaluate the pipeline
  simp only [adminProcessElimination, hphase, ne_eq, not_true_eq_false, if_false, hnowin]
  refine ⟨?_, ?_, ?_, ?_⟩
  · simp only [applyRoomPatch, Option.getD_some, resetAllVotes]
    rw [hround1]
  · simp [applyRoomPatch]
  · intro p' hp' hpe'
    simp only [applyRoomPatch] at hp'
    rw [h3map] at hp'
    rcases List.mem_map.mp hp' with ⟨q, hq, hqeq⟩
    by_cases hqe : q.is_eliminated
    · rw [← hqeq] at hpe'
      simp [hqe] at hpe'
    · rw [← hqeq]
      simp [hqe]
  · intro p hp hpe
    refine ⟨{ p with votes := 0, has_voted := false, last_seen := now }, ?_, rfl, rfl, rfl,
      rfl, hpe, rfl⟩
    simp only [applyRoomPatch]
    rw [h3map]
    have hmem2 : ({ p with votes := 0, has_voted := false, last_seen := now } : Player)
        ∈ (resetAllVotes (room.players.map (fun p => p.id))
            (applyElimination room now) now).players := by
      rw [h2map]
      exact List.mem_map_of_mem _ (helim1 p hp hpe)
    have := List.mem_map_of_mem
      (fun q => if !q.is_eliminated
        then { q with clue := "", has_submitted_clue := false, last_seen := now } else q) hmem2
    simpa [hpe] using this

/-- A reveal_votes room with a tied vote snapshot, fixture for the C8 witness:
three "Dog" holders and one "Wolf" holder, so no winner is found. -/
def revealRoom : Room :=
  { mkRoom "reveal_votes"
      [{ mkPlayer "a1" "Ann" true with word := "Dog" },
       { mkPlayer "a2" "Ben" false with word := "Dog" },
       { mkPlayer "a3" "Cy" false with word := "Dog" },
       { mkPlayer "a4" "Di" false with word := "Wolf" }] with
    vote_counts := some [("a1", 1), ("a2", 1)], round := 3 }

/-- Witness for C8: the tied reveal round advances `round` from 3 to 4 and
returns to `simultaneous_clues`. -/
theorem round_progression_witness :
    (adminProcessElimination revealRoom 50).round = revealRoom.round + 1
    ∧ (adminProcessElimination revealRoom 50).game_phase = "simultaneous_clues" := by
  have h := round_progression revealRoom 50 (by decide) (by decide) (by decide)
  exact ⟨h.1, h.2.1⟩
